import Mathlib

/-!
Verification of the windowing, validation, balancing, splitting and online-loop
logic of the bionic_apps BCI repository, via a shallow embedding of the Python
sources into Lean.

Sample matrices (numpy arrays of shape channels × time) are embedded as
`List (List Int)`; seconds-valued parameters as rationals; fallible code
returns `Except`.
-/

namespace BionicApps

/-- Error kinds raised by the windowing code: the failed `assert` corresponds to
the spec's `InsufficientDataError`, the `ValueError` for a negative step to
`InvalidParameterError`. -/
inductive WindowError where
  | InsufficientDataError
  | InvalidParameterError
deriving DecidableEq

/-- Embeds `data.shape[-1]`: the time dimension of a channels×time matrix, read off the
first channel (all channels of a numpy matrix share one time length). -/
def timeDim (data : List (List Int)) : Nat :=
  match data with
  | [] => 0
  | ch :: _ => ch.length

/-- Embeds `_windowed_view` (src/sklearn_pipeline_bci/utils.py, lines 4-32),
which is also the body of `window_data` (src/bionic_apps/utils.py, lines 40-53)
after its seconds→samples conversion.  With `S = window_step > 0` the code sets
`overlap = window_length - window_step`, asserts `T - overlap > 0`
(else the assert fails: `InsufficientDataError`), and builds a strided view of
shape `((T - overlap) // S, channels, window_length)`; window `i` of the strided
view reads exactly the elements `data[:, i*S : i*S + window_length]`, which is
what the slice below produces.  With `S = 0` the first `window_length` samples
form a single window; a negative `S` raises `ValueError`
(`InvalidParameterError`). -/
def windowedView (data : List (List Int)) (window_length window_step : Int) :
    Except WindowError (List (List (List Int))) :=
  if 0 < window_step then
    if 0 < (timeDim data : Int) - (window_length - window_step) then
      Except.ok ((List.range
          (((timeDim data : Int) - (window_length - window_step)).toNat /
            window_step.toNat)).map
        (fun i => data.map (fun ch =>
          (ch.drop (i * window_step.toNat)).take window_length.toNat)))
    else
      Except.error WindowError.InsufficientDataError
  else if window_step = 0 then
    Except.ok [data.map (fun ch => ch.take window_length.toNat)]
  else
    Except.error WindowError.InvalidParameterError

/-- Python `int()` applied to a rational: truncation toward zero. -/
def pyInt (q : ℚ) : Int := if 0 ≤ q then ⌊q⌋ else -⌊-q⌋

/-- The seconds→samples conversion `int(x * fs)` used by `window_data`
(src/bionic_apps/utils.py, lines 38-39) and `window_epochs`
(src/sklearn_pipeline_bci/utils.py, line 54). -/
def toSampleCount (x fs : ℚ) : Int := pyInt (x * fs)

/-- The conversion as the spec words it, for comparison: round to the nearest
integer (Mathlib's `round`). -/
def roundSampleCount (x fs : ℚ) : Int := round (x * fs)

/-- Embeds `window_data` (src/bionic_apps/utils.py, lines 20-53): convert the
seconds-valued length and step to sample counts with Python `int`, then window. -/
def window_data (data : List (List Int)) (window_length window_step fs : ℚ) :
    Except WindowError (List (List (List Int))) :=
  windowedView data (toSampleCount window_length fs) (toSampleCount window_step fs)

lemma timeDim_eq {data : List (List Int)} {T : Nat}
    (hne : data ≠ []) (hT : ∀ ch ∈ data, ch.length = T) : timeDim data = T := by
  cases data with
  | nil => exact absurd rfl hne
  | cons ch rest => exact hT ch (List.mem_cons_self ch rest)

/-- C1: with step `S > 0` and `T ≥ L` samples per channel, the segmenter
succeeds, yields `floor((T-(L-S))/S)` windows, and window `i` is exactly the
raw slice `data[:, i*S : i*S+L]`. -/
theorem windowedView_count_and_content
    (data : List (List Int)) (T : Nat) (L S : Int)
    (hne : data ≠ []) (hT : ∀ ch ∈ data, ch.length = T)
    (hS : 0 < S) (hL : 0 < L) (hTL : L ≤ (T : Int)) :
    ∃ ws, windowedView data L S = Except.ok ws ∧
      ws.length = ((T : Int) - (L - S)).toNat / S.toNat ∧
      ∀ i, i < ws.length →
        ws.get? i =
          some (data.map (fun ch => (ch.drop (i * S.toNat)).take L.toNat)) := by
  have hTdim : timeDim data = T := timeDim_eq hne hT
  unfold windowedView
  rw [hTdim, if_pos hS]
  have hpos : (0 : Int) < (T : Int) - (L - S) := by omega
  rw [if_pos hpos]
  refine ⟨_, rfl, ?_, ?_⟩
  · simp
  · intro i hi
    simp only [List.length_map, List.length_range] at hi
    simp [List.get?_eq_getElem?, List.getElem?_map, List.getElem?_range, hi]

/-- Witness for C1 at the spec's concrete scenario: 3 channels, T = 1000,
L = 200, S = 50 yield exactly 17 windows. -/
theorem windowedView_count_and_content_witness :
    ∃ ws, windowedView (List.replicate 3 ((List.range 1000).map Int.ofNat)) 200 50
        = Except.ok ws ∧ ws.length = 17 := by
  obtain ⟨ws, hok, hlen, _⟩ :=
    windowedView_count_and_content
      (List.replicate 3 ((List.range 1000).map Int.ofNat)) 1000 200 50
      (by simp)
      (by intro ch h; rw [List.eq_of_mem_replicate h]; simp)
      (by decide) (by decide) (by decide)
  exact ⟨ws, hok, by rw [hlen]; decide⟩

/-- C2 (amended): with `S > 0` the segmenter fails with
`InsufficientDataError` exactly when `T - (L - S) ≤ 0` — the code asserts on
`T - overlap`, not on the window count `floor((T-(L-S))/S)`. -/
theorem windowedView_insufficient_iff
    (data : List (List Int)) (T : Nat) (L S : Int)
    (hne : data ≠ []) (hT : ∀ ch ∈ data, ch.length = T) (hS : 0 < S) :
    windowedView data L S = Except.error WindowError.InsufficientDataError ↔
      (T : Int) - (L - S) ≤ 0 := by
  have hTdim : timeDim data = T := timeDim_eq hne hT
  unfold windowedView
  rw [hTdim, if_pos hS]
  by_cases h : (0 : Int) < (T : Int) - (L - S)
  · rw [if_pos h]
    constructor
    · intro hc; exact absurd hc (by simp)
    · intro hc; omega
  · rw [if_neg h]
    constructor
    · intro _; omega
    · intro _; rfl

/-- Witness for the amended C2: T = 1, L = 5, S = 2 has `T - (L - S) = -2 ≤ 0`,
so the call fails with `InsufficientDataError`. -/
theorem windowedView_insufficient_iff_witness :
    windowedView [[(0 : Int)]] 5 2
        = Except.error WindowError.InsufficientDataError ↔
      ((1 : Nat) : Int) - (5 - 2) ≤ 0 :=
  windowedView_insufficient_iff [[(0 : Int)]] 1 5 2 (by simp)
    (by intro ch h; simp at h; subst h; rfl) (by decide)

set_option maxRecDepth 8192 in
/-- Counterexample to C2 as stated: for T = 180 < L = 200 with S = 50 the call
does NOT fail (even though the window-count formula gives 0 ≤ 0 windows); it
returns an empty, zero-window result. -/
theorem windowedView_no_fail_on_L_gt_T :
    windowedView [List.replicate 180 (0 : Int)] 200 50 = Except.ok [] ∧
      windowedView [List.replicate 180 (0 : Int)] 200 50 ≠
        Except.error WindowError.InsufficientDataError := by
  have h : windowedView [List.replicate 180 (0 : Int)] 200 50 = Except.ok [] := rfl
  refine ⟨h, ?_⟩
  rw [h]
  intro hc
  cases hc

/-- C9 (amended): the seconds→samples conversion is Python `int(x*fs)` —
truncation toward zero, hence the floor of `x*fs` whenever that product is
nonnegative — and `window_data` applies exactly this conversion to both the
window length and the window step before windowing. -/
theorem toSampleCount_truncates (x fs : ℚ) (h : 0 ≤ x * fs) :
    toSampleCount x fs = ⌊x * fs⌋ ∧
      ∀ (data : List (List Int)) (step : ℚ),
        window_data data x step fs =
          windowedView data (toSampleCount x fs) (toSampleCount step fs) := by
  constructor
  · unfold toSampleCount pyInt
    rw [if_pos h]
  · intro data step
    rfl

/-- Witness for the amended C9 at x = 0.8 s, fs = 2 Hz. -/
theorem toSampleCount_truncates_witness :
    toSampleCount (4/5 : ℚ) 2 = ⌊(4/5 : ℚ) * 2⌋ ∧
      ∀ (data : List (List Int)) (step : ℚ),
        window_data data (4/5 : ℚ) step 2 =
          windowedView data (toSampleCount (4/5 : ℚ) 2) (toSampleCount step 2) :=
  toSampleCount_truncates (4/5 : ℚ) 2 (by norm_num)

/-- Counterexample to C9 as stated: at length 0.8 s and fs = 2 Hz the code
truncates 0.8·2 = 1.6 to 1 sample, while rounding to the nearest integer
gives 2. -/
theorem toSampleCount_not_round :
    toSampleCount (4/5 : ℚ) 2 = 1 ∧ roundSampleCount (4/5 : ℚ) 2 = 2 ∧
      toSampleCount (4/5 : ℚ) 2 ≠ roundSampleCount (4/5 : ℚ) 2 := by
  have h1 : toSampleCount (4/5 : ℚ) 2 = 1 := by
    unfold toSampleCount pyInt
    rw [if_pos (by norm_num)]
    norm_num
  have h2 : roundSampleCount (4/5 : ℚ) 2 = 2 := by
    unfold roundSampleCount
    rw [round_eq]
    norm_num
  exact ⟨h1, h2, by rw [h1, h2]; decide⟩

/-! ## Online loop timing (src/BCISystem.py, `online_processing`) -/

/-- Embeds `sleep_time = 1 / dsp.fs` (src/BCISystem.py, line 100): the target
iteration period of the online loop. -/
def targetPeriod (fs : ℚ) : ℚ := 1 / fs

/-- The argument of `time.sleep` at src/BCISystem.py line 131:
`max(0, sleep_time - (time.time() - t))`, with `elapsed` the processing time of
the iteration. -/
def sleepDuration (fs elapsed : ℚ) : ℚ := max 0 (targetPeriod fs - elapsed)

/-- C7: the computed sleep duration equals `max(0, 1/fs − elapsed)`, is never
negative, and at fs = 160 Hz equals 2.25 ms for 4 ms of processing and 0 for
8 ms of processing. -/
theorem sleepDuration_spec :
    (∀ fs elapsed : ℚ, sleepDuration fs elapsed = max 0 (1 / fs - elapsed)) ∧
      (∀ fs elapsed : ℚ, 0 ≤ sleepDuration fs elapsed) ∧
      sleepDuration 160 (1/250) = 9/4000 ∧
      sleepDuration 160 (1/125) = 0 := by
  refine ⟨fun fs elapsed => rfl, fun fs elapsed => le_max_left 0 _, ?_, ?_⟩
  · unfold sleepDuration targetPeriod
    rw [max_eq_right (by norm_num)]
    norm_num
  · unfold sleepDuration targetPeriod
    rw [max_eq_left (by norm_num)]

/-! ## Feature/classifier validation (src/bionic_apps/validations.py) -/

/-- Embeds `FeatureType` (src/bionic_apps/feature_extraction, package init
file). -/
inductive FeatureType where
  | RAW
  | USER_PIPELINE
  | HUGINES
  | AVG_FFT_POWER
  | FFT_RANGE
  | MULTI_AVG_FFT_POW
deriving DecidableEq

/-- Embeds `ClassifierType`, imported by validations.py from `bionic_apps.ai.classifier`
(not among the sources); its two members referenced there are `EEG_NET` and
`VOTING_SVM`. -/
inductive ClassifierType where
  | EEG_NET
  | VOTING_SVM
deriving DecidableEq

/-- The `ValueError` raised by `validate_feature_classifier_pair`, the spec's
`IncompatibleFeatureClassifierError`. -/
inductive ValidationError where
  | IncompatibleFeatureClassifierError
deriving DecidableEq

/-- Embeds `validate_feature_classifier_pair` (src/bionic_apps/validations.py,
lines 5-15): for `EEG_NET` the feature type is overwritten with `RAW`; for
`VOTING_SVM` with one of the three frequency-domain features the pair passes
through; every other combination raises. -/
def validate_feature_classifier_pair (feature_type : FeatureType)
    (classifier_type : ClassifierType) :
    Except ValidationError (FeatureType × ClassifierType) :=
  if classifier_type = ClassifierType.EEG_NET then
    Except.ok (FeatureType.RAW, classifier_type)
  else if classifier_type = ClassifierType.VOTING_SVM ∧
      (feature_type = FeatureType.AVG_FFT_POWER ∨
       feature_type = FeatureType.FFT_RANGE ∨
       feature_type = FeatureType.MULTI_AVG_FFT_POW) then
    Except.ok (feature_type, classifier_type)
  else
    Except.error ValidationError.IncompatibleFeatureClassifierError

/-- C4 (amended): validation never fails for the deep sequence classifier
(`EEG_NET`) — it silently coerces the feature type to `RAW` instead — while for
the shallow kernel classifier (`VOTING_SVM`) it passes the pair through
unchanged exactly for the three frequency-domain feature kinds and fails for
all others. -/
theorem validate_feature_classifier_pair_spec :
    ∀ f : FeatureType,
      validate_feature_classifier_pair f ClassifierType.EEG_NET =
        Except.ok (FeatureType.RAW, ClassifierType.EEG_NET) ∧
      validate_feature_classifier_pair f ClassifierType.VOTING_SVM =
        (if f = FeatureType.AVG_FFT_POWER ∨ f = FeatureType.FFT_RANGE ∨
            f = FeatureType.MULTI_AVG_FFT_POW then
          Except.ok (f, ClassifierType.VOTING_SVM)
        else
          Except.error ValidationError.IncompatibleFeatureClassifierError) := by
  intro f
  cases f <;> exact ⟨rfl, rfl⟩

/-- Counterexample to C4 as stated: the pair (AVG_FFT_POWER, EEG_NET) is not in
the allowed table (a deep sequence model requires RAW features), yet validation
does not fail — and it does not pass the pair through unchanged either: the
feature type comes back as RAW. -/
theorem validate_feature_classifier_pair_coerces :
    validate_feature_classifier_pair FeatureType.AVG_FFT_POWER
        ClassifierType.EEG_NET =
      Except.ok (FeatureType.RAW, ClassifierType.EEG_NET) ∧
    FeatureType.RAW ≠ FeatureType.AVG_FFT_POWER := by
  exact ⟨rfl, by decide⟩

/-! ## Subject-aware splitter (spec-modelled)

`SubjectKFold` is imported by src/BCISystem.py from the `preprocess` package
but its definition is not among the sources, and the grouped splitter used by
src/bionic_apps/legacy/multi_svm.py is an external library class; both are
modelled from the spec. -/

/-- One train/test fold of the subject-aware splitter, by subject (or, for the
cross-session topology, by session) identifier. -/
structure Fold where
  train : List Nat
  test : List Nat

/-- Modelled from the spec: `SubjectKFold.split` in its default
leave-one-subject-out topology — one fold per subject; fold k's test set is
subject k's entire data and its train set all other subjects' data. -/
def leaveOneSubjectOutFolds (subjects : List Nat) : List Fold :=
  subjects.map (fun s => ⟨subjects.filter (fun x => x ≠ s), [s]⟩)

/-- Modelled from the spec: the "independent sessions/days" topology — for one
subject, the train set is all but the last session and the test set is the
held-out last session. -/
def independentSessionsFold (sessions : List Nat) : Fold :=
  ⟨sessions.dropLast, sessions.drop (sessions.length - 1)⟩

lemma join_map_singleton (l : List Nat) :
    (l.map (fun s => [s])).join = l := by
  induction l with
  | nil => rfl
  | cons a l ih => simp [ih]

lemma last_not_mem_dropLast :
    ∀ (l : List Nat), l.Nodup → ∀ t ∈ l.drop (l.length - 1), t ∉ l.dropLast := by
  intro l
  induction l with
  | nil => intro _ t ht; simp at ht
  | cons a l ih =>
    intro hnd t ht
    cases l with
    | nil => simp
    | cons b l' =>
      obtain ⟨ha, hl⟩ := List.nodup_cons.mp hnd
      have ht' : t ∈ (b :: l').drop ((b :: l').length - 1) := by
        simpa using ht
      have htl : t ∈ b :: l' := List.mem_of_mem_drop ht'
      have hta : t ≠ a := fun h => ha (h ▸ htl)
      have hnt : t ∉ (b :: l').dropLast := ih hl t ht'
      simp only [List.dropLast_cons₂, List.mem_cons]
      rintro (rfl | h)
      · exact hta rfl
      · exact hnt h

/-- C3 (spec-modelled): every leave-one-subject-out fold has disjoint train and
test subject sets, the test sets across folds cover the subject list exactly
once each, and in the same-subject cross-session topology the held-out session
never occurs in the train sessions. -/
theorem subjectSplitter_leakage_free (subjects sessions : List Nat)
    (hnd : subjects.Nodup) (hsn : sessions.Nodup) :
    (∀ f ∈ leaveOneSubjectOutFolds subjects, ∀ s ∈ f.test, s ∉ f.train) ∧
    ((leaveOneSubjectOutFolds subjects).map Fold.test).join = subjects ∧
    (∀ s ∈ subjects,
      (((leaveOneSubjectOutFolds subjects).map Fold.test).join).count s = 1) ∧
    (∀ t ∈ (independentSessionsFold sessions).test,
      t ∉ (independentSessionsFold sessions).train) := by
  have hjoin : ((leaveOneSubjectOutFolds subjects).map Fold.test).join
      = subjects := by
    unfold leaveOneSubjectOutFolds
    rw [List.map_map]
    exact join_map_singleton subjects
  refine ⟨?_, hjoin, ?_, ?_⟩
  · intro f hf s hs hmem
    unfold leaveOneSubjectOutFolds at hf
    rw [List.mem_map] at hf
    obtain ⟨s₀, _, rfl⟩ := hf
    have hs0 : s = s₀ := List.mem_singleton.mp hs
    subst hs0
    have := (List.mem_filter.mp hmem).2
    simp at this
  · intro s hs
    rw [hjoin]
    exact List.count_eq_one_of_mem hnd hs
  · exact last_not_mem_dropLast sessions hsn

/-- Witness for C3 with three subjects and two sessions. -/
theorem subjectSplitter_leakage_free_witness :
    (∀ f ∈ leaveOneSubjectOutFolds [1, 2, 3], ∀ s ∈ f.test, s ∉ f.train) ∧
    ((leaveOneSubjectOutFolds [1, 2, 3]).map Fold.test).join = [1, 2, 3] ∧
    (∀ s ∈ [1, 2, 3],
      (((leaveOneSubjectOutFolds [1, 2, 3]).map Fold.test).join).count s = 1) ∧
    (∀ t ∈ (independentSessionsFold [4, 5]).test,
      t ∉ (independentSessionsFold [4, 5]).train) :=
  subjectSplitter_leakage_free [1, 2, 3] [4, 5] (by decide) (by decide)

/-! ## Online loop (src/BCISystem.py, `online_processing`, lines 92-133) -/

/-- One return of `dsp.get_eeg_window`: the current channels×samples buffer
contents, and the concurrently recorded ground-truth label (looked at only when
`get_real_labels` is set). -/
structure Acquisition where
  data : List (List ℚ)
  label : Option Int

/-- The window-sufficiency test at src/BCISystem.py line 115: the iteration
proceeds only when `len(np.shape(data)) ≥ 2` (the buffer is a genuine 2-D
channels×samples array) and `sh[1] / fs ≥ window_length`. -/
def windowSufficient (fs window_length : ℚ) (data : List (List ℚ)) : Bool :=
  match data with
  | [] => false
  | ch :: _ => decide (window_length ≤ (ch.length : ℚ) / fs)

/-- The `avg_column` feature at src/BCISystem.py lines 120-122: the per-channel
mean of the window, flattened into a single feature row. -/
def avgColumn (data : List (List ℚ)) : List ℚ :=
  data.map (fun ch => ch.sum / (ch.length : ℚ))

/-- The `NotImplementedError` raised for an unrecognized feature kind at
src/BCISystem.py line 124. -/
inductive OnlineError where
  | NotImplementedError
deriving DecidableEq

/-- Embeds the `while` loop of `online_processing` (src/BCISystem.py, lines
102-133).  The liveness-bounded run is the list `acqs` of successive
acquisition results; `label` is the loop variable initialised to `None` at line
104 and overwritten per iteration only when `get_real_labels` is set; an
insufficient window `continue`s without emitting; the `avg_column` feature is
computed and any other feature kind raises `NotImplementedError`; an emitting
iteration appends one entry to each of `y_preds` and `y_real`.  Returns
`(y_preds, y_real)`. -/
def onlineLoop (feature : String) (fs window_length : ℚ)
    (get_real_labels : Bool) (predict : List ℚ → Int) :
    List Acquisition → Option Int →
      Except OnlineError (List Int × List (Option Int))
  | [], _ => Except.ok ([], [])
  | a :: acqs, label =>
    let label' := if get_real_labels then a.label else label
    if windowSufficient fs window_length a.data then
      if feature = "avg_column" then
        match onlineLoop feature fs window_length get_real_labels predict
            acqs label' with
        | Except.ok (ps, rs) =>
          Except.ok (predict (avgColumn a.data) :: ps, label' :: rs)
        | Except.error e => Except.error e
      else
        Except.error OnlineError.NotImplementedError
    else
      onlineLoop feature fs window_length get_real_labels predict acqs label'

/-- C8: an iteration whose acquisition returns an insufficient window raises no
error and emits no prediction — the loop's result is exactly the result of the
remaining iterations (with the label variable updated as the code does). -/
theorem onlineLoop_skips_insufficient
    (feature : String) (fs window_length : ℚ) (g : Bool)
    (predict : List ℚ → Int) (a : Acquisition) (acqs : List Acquisition)
    (label : Option Int)
    (h : windowSufficient fs window_length a.data = false) :
    onlineLoop feature fs window_length g predict (a :: acqs) label =
      onlineLoop feature fs window_length g predict acqs
        (if g then a.label else label) := by
  conv_lhs => unfold onlineLoop
  simp [h]

/-- Witness for C8: an empty acquisition buffer is insufficient and is skipped. -/
theorem onlineLoop_skips_insufficient_witness :
    onlineLoop "avg_column" 1 1 false (fun _ => 0)
        [Acquisition.mk [] none] none =
      onlineLoop "avg_column" 1 1 false (fun _ => 0) []
        (if false then (Acquisition.mk [] none).label else none) :=
  onlineLoop_skips_insufficient "avg_column" 1 1 false (fun _ => 0)
    (Acquisition.mk [] none) [] none rfl

lemma onlineLoop_ok_invariant (feature : String) (fs window_length : ℚ)
    (g : Bool) (predict : List ℚ → Int) :
    ∀ (acqs : List Acquisition) (label : Option Int) (ps : List Int)
      (rs : List (Option Int)),
      onlineLoop feature fs window_length g predict acqs label =
        Except.ok (ps, rs) →
      ps.length = rs.length ∧ (g = false → ∀ r ∈ rs, r = label) := by
  intro acqs
  induction acqs with
  | nil =>
    intro label ps rs h
    unfold onlineLoop at h
    injection h with h
    rw [Prod.mk.injEq] at h
    obtain ⟨h1, h2⟩ := h
    subst h1; subst h2
    exact ⟨rfl, fun _ r hr => absurd hr (List.not_mem_nil r)⟩
  | cons a acqs ih =>
    intro label ps rs h
    unfold onlineLoop at h
    by_cases hs : windowSufficient fs window_length a.data
    · rw [hs] at h
      simp only [if_true] at h
      by_cases hf : feature = "avg_column"
      · rw [if_pos hf] at h
        cases hrec : onlineLoop feature fs window_length g predict acqs
            (if g then a.label else label) with
        | ok pr =>
          obtain ⟨ps', rs'⟩ := pr
          rw [hrec] at h
          injection h with h
          have hps : ps = predict (avgColumn a.data) :: ps' :=
            (congrArg Prod.fst h).symm
          have hrs : rs = (if g then a.label else label) :: rs' :=
            (congrArg Prod.snd h).symm
          subst hps; subst hrs
          obtain ⟨ih1, ih2⟩ := ih (if g then a.label else label) ps' rs' hrec
          refine ⟨by simp [ih1], fun hg r hr => ?_⟩
          rcases List.mem_cons.mp hr with hr | hr
          · rw [hr, hg]
            simp
          · have := ih2 hg r hr
            rw [hg] at this
            simpa using this
        | error e =>
          rw [hrec] at h
          cases h
      · rw [if_neg hf] at h
        cases h
    · rw [Bool.not_eq_true] at hs
      rw [hs] at h
      simp only [Bool.false_eq_true, if_false] at h
      obtain ⟨ih1, ih2⟩ := ih (if g then a.label else label) ps rs h
      refine ⟨ih1, fun hg r hr => ?_⟩
      have := ih2 hg r hr
      rw [hg] at this
      simpa using this

/-- C10: whenever the online loop terminates normally, the prediction and
ground-truth lists it returns have equal length, and with real-label recording
disabled every ground-truth entry is `None`. -/
theorem onlineLoop_lists_lockstep (feature : String) (fs window_length : ℚ)
    (g : Bool) (predict : List ℚ → Int) (acqs : List Acquisition)
    (ps : List Int) (rs : List (Option Int))
    (h : onlineLoop feature fs window_length g predict acqs none =
      Except.ok (ps, rs)) :
    ps.length = rs.length ∧ (g = false → ∀ r ∈ rs, r = none) :=
  onlineLoop_ok_invariant feature fs window_length g predict acqs none ps rs h

/-- Witness for C10: a single sufficient acquisition with recording disabled
yields one prediction and one `None` ground-truth entry. -/
theorem onlineLoop_lists_lockstep_witness :
    ([(0 : Int)]).length = ([(none : Option Int)]).length ∧
      (false = false → ∀ r ∈ [(none : Option Int)], r = none) :=
  onlineLoop_lists_lockstep "avg_column" 1 1 false (fun _ => 0)
    [Acquisition.mk [[1, 2]] (some 5)] [0] [none]
    (by norm_num [onlineLoop, windowSufficient])

/-! ## Class balancing
(`balance_epoch_nums`, src/bionic_apps/utils.py lines 92-116, identical at
src/sklearn_pipeline_bci/utils.py lines 67-91) -/

/-- Insertion step of the insertion sort modelling `np.sort` / the sortedness
of `np.unique`. -/
def insertSorted {α : Type} [LinearOrder α] (x : α) : List α → List α
  | [] => [x]
  | y :: ys => if x ≤ y then x :: y :: ys else y :: insertSorted x ys

/-- Embeds `np.sort`: the values in increasing order. -/
def npSort {α : Type} [LinearOrder α] (l : List α) : List α :=
  l.foldr insertSorted []

/-- Embeds `np.unique(labels)`: the distinct label values in increasing order. -/
def npUnique (labels : List Int) : List Int := npSort labels.dedup

/-- Embeds `np.arange(len(labels))[labels == label]`: the indices carrying a given
label, in increasing order. -/
def classIndices (labels : List Int) (c : Int) : List Nat :=
  (List.range labels.length).filter (fun i => labels.get? i = some c)

/-- The first loop of `balance_epoch_nums`: `min_elems` starts at
`len(epochs)` and is lowered to every class's element count. -/
def minElems (nEpochs : Nat) (labels : List Int) : Nat :=
  (npUnique labels).foldl (fun m c => min m (labels.count c)) nEpochs

/-- The second loop of `balance_epoch_nums`: per class, in `np.unique` order,
the class's indices are kept whole unless their number exceeds `use_elems`, in
which case they are shuffled (consuming the random state) and truncated to
`use_elems`; the per-class index blocks are concatenated. -/
def selectClasses {σ : Type} (shuffle : σ → List Nat → List Nat × σ)
    (labels : List Int) (use_elems : Nat) :
    List Int → σ → List Nat × σ
  | [], s => ([], s)
  | c :: cs, s =>
    if use_elems < (classIndices labels c).length then
      ((shuffle s (classIndices labels c)).1.take use_elems ++
        (selectClasses shuffle labels use_elems cs
          (shuffle s (classIndices labels c)).2).1,
       (selectClasses shuffle labels use_elems cs
          (shuffle s (classIndices labels c)).2).2)
    else
      (classIndices labels c ++
        (selectClasses shuffle labels use_elems cs s).1,
       (selectClasses shuffle labels use_elems cs s).2)

/-- Embeds `balance_epoch_nums`.  The external `np.random.shuffle` is passed in
explicitly: a random state of type `σ` together with the transition `shuffle`
returning the permuted index list and the successor state, seeded by `s₀`.
Returns `(epochs[sel_ind], labels[sel_ind], groups[sel_ind])` for the sorted
selected indices `sel_ind`. -/
def balance_epoch_nums {α σ : Type} (shuffle : σ → List Nat → List Nat × σ)
    (s₀ : σ) (epochs : List α) (labels : List Int)
    (groups : Option (List Int)) :
    List α × List Int × Option (List Int) :=
  let use_elems := minElems epochs.length labels
  let sel :=
    npSort (selectClasses shuffle labels use_elems (npUnique labels) s₀).1
  (sel.filterMap (fun i => epochs.get? i),
   sel.filterMap (fun i => labels.get? i),
   groups.map (fun g => sel.filterMap (fun i => g.get? i)))

lemma insertSorted_perm {α : Type} [LinearOrder α] (x : α) (l : List α) :
    (insertSorted x l).Perm (x :: l) := by
  induction l with
  | nil => exact List.Perm.refl _
  | cons y ys ih =>
    unfold insertSorted
    by_cases h : x ≤ y
    · rw [if_pos h]
    · rw [if_neg h]
      exact (ih.cons y).trans (List.Perm.swap x y ys)

lemma npSort_perm {α : Type} [LinearOrder α] (l : List α) :
    (npSort l).Perm l := by
  induction l with
  | nil => exact List.Perm.refl _
  | cons a l ih =>
    have : npSort (a :: l) = insertSorted a (npSort l) := rfl
    rw [this]
    exact (insertSorted_perm a (npSort l)).trans (ih.cons a)

lemma npUnique_perm (labels : List Int) :
    (npUnique labels).Perm labels.dedup := npSort_perm _

lemma mem_npUnique {labels : List Int} {c : Int} :
    c ∈ npUnique labels ↔ c ∈ labels := by
  rw [(npUnique_perm labels).mem_iff, List.mem_dedup]

lemma npUnique_nodup (labels : List Int) : (npUnique labels).Nodup :=
  (npUnique_perm labels).nodup_iff.mpr labels.nodup_dedup

lemma mem_classIndices {labels : List Int} {c : Int} {i : Nat} :
    i ∈ classIndices labels c ↔ i < labels.length ∧ labels.get? i = some c := by
  unfold classIndices
  rw [List.mem_filter, List.mem_range]
  simp

lemma classIndices_nodup (labels : List Int) (c : Int) :
    (classIndices labels c).Nodup :=
  (List.nodup_range _).filter _

lemma classIndices_length (labels : List Int) (c : Int) :
    (classIndices labels c).length = labels.count c := by
  induction labels with
  | nil => rfl
  | cons a l ih =>
    unfold classIndices at ih ⊢
    rw [List.length_cons, List.range_succ_eq_map, List.filter_cons,
      List.filter_map]
    have hcomp :
        ((fun i => decide ((a :: l).get? i = some c)) ∘ Nat.succ) =
          (fun i => decide (l.get? i = some c)) := by
      funext i
      rfl
    rw [hcomp]
    simp only [List.get?_eq_getElem?] at ih
    by_cases h : a = c
    · subst h
      simp [List.count_cons, ih]
    · have : ¬ ((a :: l).get? 0 = some c) := by simp [h]
      simp [this, List.count_cons, h, ih]

lemma mem_selectClasses {σ : Type} {shuffle : σ → List Nat → List Nat × σ}
    (hshuffle : ∀ s l, ((shuffle s l).1).Perm l)
    (labels : List Int) (u : Nat) :
    ∀ (cs : List Int) (s : σ) (i : Nat),
      i ∈ (selectClasses shuffle labels u cs s).1 →
      ∃ c ∈ cs, i ∈ classIndices labels c := by
  intro cs
  induction cs with
  | nil =>
    intro s i hi
    simp [selectClasses] at hi
  | cons c cs ih =>
    intro s i hi
    unfold selectClasses at hi
    by_cases h : u < (classIndices labels c).length
    · rw [if_pos h] at hi
      rcases List.mem_append.mp hi with hi | hi
      · refine ⟨c, List.mem_cons_self c cs, ?_⟩
        exact ((hshuffle s _).mem_iff).mp (List.mem_of_mem_take hi)
      · obtain ⟨c', hc', hic⟩ := ih _ i hi
        exact ⟨c', List.mem_cons_of_mem _ hc', hic⟩
    · rw [if_neg h] at hi
      rcases List.mem_append.mp hi with hi | hi
      · exact ⟨c, List.mem_cons_self c cs, hi⟩
      · obtain ⟨c', hc', hic⟩ := ih _ i hi
        exact ⟨c', List.mem_cons_of_mem _ hc', hic⟩

lemma selectClasses_countP_not_mem {σ : Type}
    {shuffle : σ → List Nat → List Nat × σ}
    (hshuffle : ∀ s l, ((shuffle s l).1).Perm l)
    (labels : List Int) (u : Nat) :
    ∀ (cs : List Int) (s : σ) (c : Int), c ∉ cs →
      ((selectClasses shuffle labels u cs s).1).countP
        (fun i => labels.get? i = some c) = 0 := by
  intro cs s c hc
  rw [List.countP_eq_zero]
  intro i hi
  obtain ⟨c', hc', hic⟩ := mem_selectClasses hshuffle labels u cs s i hi
  have : labels.get? i = some c' := (mem_classIndices.mp hic).2
  simp only [this, decide_eq_true_eq, Option.some.injEq]
  intro h
  exact hc (h ▸ hc')

lemma selectClasses_countP_mem {σ : Type}
    {shuffle : σ → List Nat → List Nat × σ}
    (hshuffle : ∀ s l, ((shuffle s l).1).Perm l)
    (labels : List Int) (u : Nat) :
    ∀ (cs : List Int) (s : σ), cs.Nodup → ∀ c ∈ cs,
      ((selectClasses shuffle labels u cs s).1).countP
        (fun i => labels.get? i = some c) = min (labels.count c) u := by
  intro cs
  induction cs with
  | nil =>
    intro s _ c hc
    cases hc
  | cons c' cs ih =>
    intro s hnd c hc
    obtain ⟨hc'cs, hndcs⟩ := List.nodup_cons.mp hnd
    have hblockall : ∀ (block : List Nat), (∀ i ∈ block, i ∈ classIndices labels c') →
        block.countP (fun i => labels.get? i = some c) =
          (if c = c' then block.length else 0) := by
      intro block hsub
      by_cases hcc : c = c'
      · subst hcc
        rw [if_pos rfl, List.countP_eq_length]
        intro i hi
        have := (mem_classIndices.mp (hsub i hi)).2
        simpa using this
      · rw [if_neg hcc, List.countP_eq_zero]
        intro i hi
        have := (mem_classIndices.mp (hsub i hi)).2
        simp only [this, decide_eq_true_eq, Option.some.injEq]
        intro h
        exact hcc h.symm
    unfold selectClasses
    by_cases h : u < (classIndices labels c').length
    · rw [if_pos h, List.countP_append]
      have hlen : ((shuffle s (classIndices labels c')).1.take u).length = u := by
        rw [List.length_take, (hshuffle s _).length_eq]
        omega
      have hblock := hblockall ((shuffle s (classIndices labels c')).1.take u)
        (fun i hi => ((hshuffle s _).mem_iff).mp (List.mem_of_mem_take hi))
      rcases List.mem_cons.mp hc with rfl | hcs
      · rw [hblock, if_pos rfl, hlen,
          selectClasses_countP_not_mem hshuffle labels u cs _ c hc'cs]
        rw [classIndices_length] at h
        omega
      · have hcc : c ≠ c' := fun hh => hc'cs (hh ▸ hcs)
        rw [hblock, if_neg hcc, ih _ hndcs c hcs]
        omega
    · rw [if_neg h, List.countP_append]
      have hblock := hblockall (classIndices labels c') (fun i hi => hi)
      rcases List.mem_cons.mp hc with rfl | hcs
      · rw [hblock, if_pos rfl,
          selectClasses_countP_not_mem hshuffle labels u cs _ c hc'cs,
          classIndices_length]
        rw [classIndices_length] at h
        omega
      · have hcc : c ≠ c' := fun hh => hc'cs (hh ▸ hcs)
        rw [hblock, if_neg hcc, ih _ hndcs c hcs]
        omega

lemma selectClasses_nodup {σ : Type} {shuffle : σ → List Nat → List Nat × σ}
    (hshuffle : ∀ s l, ((shuffle s l).1).Perm l)
    (labels : List Int) (u : Nat) :
    ∀ (cs : List Int) (s : σ), cs.Nodup →
      ((selectClasses shuffle labels u cs s).1).Nodup := by
  intro cs
  induction cs with
  | nil =>
    intro s _
    simp [selectClasses]
  | cons c cs ih =>
    intro s hnd
    obtain ⟨hccs, hndcs⟩ := List.nodup_cons.mp hnd
    have hdisj : ∀ (block : List Nat), (∀ i ∈ block, i ∈ classIndices labels c) →
        ∀ (s' : σ), block.Disjoint ((selectClasses shuffle labels u cs s').1) := by
      intro block hsub s' i hib hir
      obtain ⟨c', hc', hic'⟩ := mem_selectClasses hshuffle labels u cs s' i hir
      have h1 := (mem_classIndices.mp (hsub i hib)).2
      have h2 := (mem_classIndices.mp hic').2
      rw [h1] at h2
      injection h2 with h2
      exact hccs (h2 ▸ hc')
    unfold selectClasses
    by_cases h : u < (classIndices labels c).length
    · rw [if_pos h, List.nodup_append]
      refine ⟨?_, ih _ hndcs, ?_⟩
      · exact (List.take_sublist _ _).nodup
          (((hshuffle s _).nodup_iff).mpr (classIndices_nodup labels c))
      · exact hdisj _ (fun i hi =>
          ((hshuffle s _).mem_iff).mp (List.mem_of_mem_take hi)) _
    · rw [if_neg h, List.nodup_append]
      exact ⟨classIndices_nodup labels c, ih _ hndcs,
        hdisj _ (fun i hi => hi) _⟩

lemma foldl_min_le_init : ∀ (l : List Nat) (z : Nat), l.foldl min z ≤ z := by
  intro l
  induction l with
  | nil => intro z; exact le_refl z
  | cons a l ih => intro z; exact le_trans (ih (min z a)) (min_le_left z a)

lemma foldl_min_le_mem :
    ∀ (l : List Nat) (z x : Nat), x ∈ l → l.foldl min z ≤ x := by
  intro l
  induction l with
  | nil => intro z x hx; cases hx
  | cons a l ih =>
    intro z x hx
    rcases List.mem_cons.mp hx with rfl | hx
    · exact le_trans (foldl_min_le_init l (min z x)) (min_le_right z x)
    · exact ih (min z a) x hx

lemma foldl_min_eq_init_or_mem :
    ∀ (l : List Nat) (z : Nat), l.foldl min z = z ∨ l.foldl min z ∈ l := by
  intro l
  induction l with
  | nil => intro z; exact Or.inl rfl
  | cons a l ih =>
    intro z
    rcases ih (min z a) with h | h
    · rcases min_choice z a with hm | hm
      · exact Or.inl (by rw [List.foldl_cons, h, hm])
      · exact Or.inr (by rw [List.foldl_cons, h, hm]; exact List.mem_cons_self a l)
    · exact Or.inr (List.mem_cons_of_mem a h)

lemma minElems_eq_foldl_map (nEpochs : Nat) (labels : List Int) :
    minElems nEpochs labels =
      ((npUnique labels).map (fun c => labels.count c)).foldl min nEpochs := by
  unfold minElems
  rw [List.foldl_map]

lemma minElems_le_count (nEpochs : Nat) {labels : List Int} {c : Int}
    (hc : c ∈ labels) : minElems nEpochs labels ≤ labels.count c := by
  rw [minElems_eq_foldl_map]
  exact foldl_min_le_mem _ nEpochs _
    (List.mem_map_of_mem _ (mem_npUnique.mpr hc))

lemma exists_count_eq_minElems {labels : List Int} (hne : labels ≠ [])
    {nEpochs : Nat} (hn : nEpochs = labels.length) :
    ∃ c ∈ labels, labels.count c = minElems nEpochs labels := by
  rcases foldl_min_eq_init_or_mem
      ((npUnique labels).map (fun c => labels.count c)) nEpochs with h | h
  · obtain ⟨c, hc⟩ := List.exists_mem_of_ne_nil labels hne
    refine ⟨c, hc, le_antisymm ?_ (minElems_le_count nEpochs hc)⟩
    rw [minElems_eq_foldl_map, h, hn]
    exact List.count_le_length c labels
  · rw [List.mem_map] at h
    obtain ⟨c, hc, hcount⟩ := h
    exact ⟨c, mem_npUnique.mp hc, by rw [minElems_eq_foldl_map]; exact hcount⟩

lemma filterMap_get?_length {β : Type} (l : List β) :
    ∀ (sel : List Nat), (∀ i ∈ sel, i < l.length) →
      (sel.filterMap (fun i => l.get? i)).length = sel.length := by
  intro sel
  induction sel with
  | nil => intro _; rfl
  | cons i sel ih =>
    intro hb
    have hi : i < l.length := hb i (List.mem_cons_self i sel)
    have hv : l.get? i = some (l.get ⟨i, hi⟩) := List.get?_eq_get hi
    simp only [List.filterMap_cons, hv, List.length_cons]
    rw [ih (fun j hj => hb j (List.mem_cons_of_mem _ hj))]

lemma filterMap_get?_count (labels : List Int) :
    ∀ (sel : List Nat), (∀ i ∈ sel, i < labels.length) →
      ∀ c, (sel.filterMap (fun i => labels.get? i)).count c =
        sel.countP (fun i => labels.get? i = some c) := by
  intro sel
  induction sel with
  | nil => intro _ c; rfl
  | cons i sel ih =>
    intro hb c
    have hi : i < labels.length := hb i (List.mem_cons_self i sel)
    have hv : labels.get? i = some (labels.get ⟨i, hi⟩) := List.get?_eq_get hi
    have ihc := ih (fun j hj => hb j (List.mem_cons_of_mem _ hj)) c
    simp only [List.filterMap_cons, hv, List.count_cons, List.countP_cons, ihc]
    by_cases hc : labels.get ⟨i, hi⟩ = c
    · simp [hc, hv]
    · simp [hc, hv, Ne.symm hc]

/-- C5: the balancing step is deterministic in the random seed — two runs with
the same random-shuffle source started from equal seed states, on the same
epochs, labels and groups, return identical outputs. -/
theorem balance_epoch_nums_deterministic {α σ : Type}
    (shuffle : σ → List Nat → List Nat × σ) (s₁ s₂ : σ)
    (epochs : List α) (labels : List Int) (groups : Option (List Int))
    (h : s₁ = s₂) :
    balance_epoch_nums shuffle s₁ epochs labels groups =
      balance_epoch_nums shuffle s₂ epochs labels groups := by
  rw [h]

/-- Witness for C5 with a concrete seeded shuffle source. -/
theorem balance_epoch_nums_deterministic_witness :
    balance_epoch_nums (fun s l => (l.reverse, s + 1)) (0 : Nat)
        [10, 20, 30] [0, 1, 1] (some [7, 8, 9]) =
      balance_epoch_nums (fun s l => (l.reverse, s + 1)) (0 : Nat)
        [10, 20, 30] [0, 1, 1] (some [7, 8, 9]) :=
  balance_epoch_nums_deterministic (fun s l => (l.reverse, s + 1)) 0 0
    [10, 20, 30] [0, 1, 1] (some [7, 8, 9]) rfl

/-- C6: on a nonempty input whose epochs, labels and groups share one length,
and for any permutation-valid random source, balancing returns the epochs,
labels and groups taken at one common list of in-range selected indices
(lock-step); every class's post-balance example count equals the pre-balance
minimum per-class count, and the total example count does not increase. -/
theorem balance_epoch_nums_balances {α σ : Type}
    (shuffle : σ → List Nat → List Nat × σ)
    (hshuffle : ∀ s l, ((shuffle s l).1).Perm l)
    (s₀ : σ) (epochs : List α) (labels : List Int) (g : List Int)
    (hne : labels ≠ [])
    (hlen : epochs.length = labels.length) (hg : g.length = labels.length) :
    ∃ sel : List Nat,
      balance_epoch_nums shuffle s₀ epochs labels (some g) =
        (sel.filterMap (fun i => epochs.get? i),
         sel.filterMap (fun i => labels.get? i),
         some (sel.filterMap (fun i => g.get? i))) ∧
      (∀ i ∈ sel, i < labels.length) ∧
      (∀ c ∈ labels,
        (sel.filterMap (fun i => labels.get? i)).count c =
          minElems epochs.length labels) ∧
      (∀ c ∈ labels, minElems epochs.length labels ≤ labels.count c) ∧
      (∃ c ∈ labels, labels.count c = minElems epochs.length labels) ∧
      (sel.filterMap (fun i => epochs.get? i)).length ≤ epochs.length := by
  have hperm :
      (npSort (selectClasses shuffle labels (minElems epochs.length labels)
          (npUnique labels) s₀).1).Perm
        (selectClasses shuffle labels (minElems epochs.length labels)
          (npUnique labels) s₀).1 := npSort_perm _
  have hmem : ∀ i ∈ npSort (selectClasses shuffle labels
      (minElems epochs.length labels) (npUnique labels) s₀).1,
      i < labels.length := by
    intro i hi
    obtain ⟨c, _, hic⟩ := mem_selectClasses hshuffle labels
      (minElems epochs.length labels) (npUnique labels) s₀ i
      (hperm.mem_iff.mp hi)
    exact (mem_classIndices.mp hic).1
  refine ⟨npSort (selectClasses shuffle labels (minElems epochs.length labels)
      (npUnique labels) s₀).1, rfl, hmem, ?_, fun c hc => minElems_le_count _ hc,
    exists_count_eq_minElems hne hlen, ?_⟩
  · intro c hc
    rw [filterMap_get?_count labels _ hmem c, hperm.countP_eq,
      selectClasses_countP_mem hshuffle labels
        (minElems epochs.length labels) (npUnique labels) s₀
        (npUnique_nodup labels) c (mem_npUnique.mpr hc)]
    exact min_eq_right (minElems_le_count _ hc)
  · rw [filterMap_get?_length epochs _ (fun i hi => hlen ▸ hmem i hi)]
    have hnd : (npSort (selectClasses shuffle labels
        (minElems epochs.length labels) (npUnique labels) s₀).1).Nodup :=
      hperm.nodup_iff.mpr (selectClasses_nodup hshuffle labels
        (minElems epochs.length labels) (npUnique labels) s₀
        (npUnique_nodup labels))
    have hsub : npSort (selectClasses shuffle labels
        (minElems epochs.length labels) (npUnique labels) s₀).1 ⊆
        List.range labels.length := by
      intro i hi
      exact List.mem_range.mpr (hmem i hi)
    have := (List.subperm_of_subset hnd hsub).length_le
    rw [List.length_range] at this
    omega

/-- Witness for C6: epochs [10,20,30] with labels [0,1,1] and groups [7,8,9]
under the identity shuffle. -/
theorem balance_epoch_nums_balances_witness :
    ∃ sel : List Nat,
      balance_epoch_nums (fun (s : Unit) (l : List Nat) => (l, s)) ()
          [10, 20, 30] [0, 1, 1] (some [7, 8, 9]) =
        (sel.filterMap (fun i => [10, 20, 30].get? i),
         sel.filterMap (fun i => ([0, 1, 1] : List Int).get? i),
         some (sel.filterMap (fun i => ([7, 8, 9] : List Int).get? i))) ∧
      (∀ i ∈ sel, i < ([0, 1, 1] : List Int).length) ∧
      (∀ c ∈ ([0, 1, 1] : List Int),
        (sel.filterMap (fun i => ([0, 1, 1] : List Int).get? i)).count c =
          minElems ([10, 20, 30] : List Nat).length [0, 1, 1]) ∧
      (∀ c ∈ ([0, 1, 1] : List Int),
        minElems ([10, 20, 30] : List Nat).length [0, 1, 1] ≤
          ([0, 1, 1] : List Int).count c) ∧
      (∃ c ∈ ([0, 1, 1] : List Int),
        ([0, 1, 1] : List Int).count c =
          minElems ([10, 20, 30] : List Nat).length [0, 1, 1]) ∧
      (sel.filterMap (fun i => ([10, 20, 30] : List Nat).get? i)).length ≤
        ([10, 20, 30] : List Nat).length :=
  balance_epoch_nums_balances (fun (s : Unit) (l : List Nat) => (l, s))
    (fun _ l => List.Perm.refl l) () [10, 20, 30] [0, 1, 1] [7, 8, 9]
    (by decide) (by decide) (by decide)

end BionicApps
